import Mathlib

/-!
Shallow embedding of the encoding-detection / transcoding core of
qrealka/unicode_test (src/main.cpp, both program variants, and
src/EncodingDetect.h), with theorems settling the frozen claims.

Byte buffers are `List Nat` (each element one 8-bit unit), decoded wide
streams are `List Nat` (each element one 16-bit code unit value as seen
through `wchar_t`).
-/

/-- The `UnicodeType` enumeration of the primary program variant
(main.cpp, first file): `Mbcs, Utf8, Utf8_BOM, Utf16_LE_BOM,
Utf16_BE_BOM, Ucs2`. -/
inductive UnicodeType where
  | Mbcs
  | Utf8
  | Utf8_BOM
  | Utf16_LE_BOM
  | Utf16_BE_BOM
  | Ucs2
deriving DecidableEq, Repr

/-- Primary `GetFormatType(begin, end)` (main.cpp lines 43-66): a 3-byte
UTF-8 BOM check guarded by `size >= 3`, then the two 2-byte UTF-16 BOM
checks guarded by `size >= 2`, otherwise `Utf8`. -/
def GetFormatType (buf : List Nat) : UnicodeType :=
  if 3 ≤ buf.length ∧ [0xEF, 0xBB, 0xBF].isPrefixOf buf = true then .Utf8_BOM
  else if 2 ≤ buf.length ∧ [0xFF, 0xFE].isPrefixOf buf = true then .Utf16_LE_BOM
  else if 2 ≤ buf.length ∧ [0xFE, 0xFF].isPrefixOf buf = true then .Utf16_BE_BOM
  else .Utf8

/-- `std::equal(pat, pat+n, begin)` with read tracking: compares
element-wise, stopping at the first mismatch (as `std::equal` does);
`none` models a read past the end of the buffer, which is undefined
behaviour in the C++ source. -/
def equalChk : List Nat → List Nat → Option Bool
  | [], _ => some true
  | _ :: _, [] => none
  | p :: ps, b :: bs => if p = b then equalChk ps bs else some false

/-- Read-tracked tail of the primary `GetFormatType`: the two 2-byte BOM
checks under their `size >= 2` guard. -/
def GetFormatTypeChk2 (buf : List Nat) : Option UnicodeType :=
  if 2 ≤ buf.length then
    match equalChk [0xFF, 0xFE] buf with
    | none => none
    | some true => some .Utf16_LE_BOM
    | some false =>
      match equalChk [0xFE, 0xFF] buf with
      | none => none
      | some true => some .Utf16_BE_BOM
      | some false => some .Utf8
  else some .Utf8

/-- Read-tracked primary `GetFormatType`: `none` would mean one of its
`std::equal` calls read past the end of the buffer. -/
def GetFormatTypeChk (buf : List Nat) : Option UnicodeType :=
  if 3 ≤ buf.length then
    match equalChk [0xEF, 0xBB, 0xBF] buf with
    | none => none
    | some true => some .Utf8_BOM
    | some false => GetFormatTypeChk2 buf
  else GetFormatTypeChk2 buf

namespace Dfa

/-- The `UnicodeType` enumeration of the second program variant (the
DFA-based one): it has no `Ucs2` member. -/
inductive UnicodeType where
  | Mbcs
  | Utf8
  | Utf8_BOM
  | Utf16_LE_BOM
  | Utf16_BE_BOM
deriving DecidableEq, Repr

/-- The `utf8d` table (main.cpp second variant, Hoehrmann's DFA data):
256 byte-class entries followed by the 16-entry transition rows of
states s0..s8. -/
def utf8d : List Nat := [
  0, 0, 0, 0, 0, 0, 0, 0, 0, 0, 0, 0, 0, 0, 0, 0, 0, 0, 0, 0, 0, 0, 0, 0, 0, 0, 0, 0, 0, 0, 0, 0,
  0, 0, 0, 0, 0, 0, 0, 0, 0, 0, 0, 0, 0, 0, 0, 0, 0, 0, 0, 0, 0, 0, 0, 0, 0, 0, 0, 0, 0, 0, 0, 0,
  0, 0, 0, 0, 0, 0, 0, 0, 0, 0, 0, 0, 0, 0, 0, 0, 0, 0, 0, 0, 0, 0, 0, 0, 0, 0, 0, 0, 0, 0, 0, 0,
  0, 0, 0, 0, 0, 0, 0, 0, 0, 0, 0, 0, 0, 0, 0, 0, 0, 0, 0, 0, 0, 0, 0, 0, 0, 0, 0, 0, 0, 0, 0, 0,
  1, 1, 1, 1, 1, 1, 1, 1, 1, 1, 1, 1, 1, 1, 1, 1, 9, 9, 9, 9, 9, 9, 9, 9, 9, 9, 9, 9, 9, 9, 9, 9,
  7, 7, 7, 7, 7, 7, 7, 7, 7, 7, 7, 7, 7, 7, 7, 7, 7, 7, 7, 7, 7, 7, 7, 7, 7, 7, 7, 7, 7, 7, 7, 7,
  8, 8, 2, 2, 2, 2, 2, 2, 2, 2, 2, 2, 2, 2, 2, 2, 2, 2, 2, 2, 2, 2, 2, 2, 2, 2, 2, 2, 2, 2, 2, 2,
  0xa, 0x3, 0x3, 0x3, 0x3, 0x3, 0x3, 0x3, 0x3, 0x3, 0x3, 0x3, 0x3, 0x4, 0x3, 0x3,
  0xb, 0x6, 0x6, 0x6, 0x5, 0x8, 0x8, 0x8, 0x8, 0x8, 0x8, 0x8, 0x8, 0x8, 0x8, 0x8,
  0x0, 0x1, 0x2, 0x3, 0x5, 0x8, 0x7, 0x1, 0x1, 0x1, 0x4, 0x6, 0x1, 0x1, 0x1, 0x1,
  1, 1, 1, 1, 1, 1, 1, 1, 1, 1, 1, 1, 1, 1, 1, 1, 1, 0, 1, 1, 1, 1, 1, 0, 1, 0, 1, 1, 1, 1, 1, 1,
  1, 2, 1, 1, 1, 1, 1, 2, 1, 2, 1, 1, 1, 1, 1, 1, 1, 1, 1, 1, 1, 1, 1, 2, 1, 1, 1, 1, 1, 1, 1, 1,
  1, 2, 1, 1, 1, 1, 1, 1, 1, 2, 1, 1, 1, 1, 1, 1, 1, 1, 1, 1, 1, 1, 1, 3, 1, 3, 1, 1, 1, 1, 1, 1,
  1, 3, 1, 1, 1, 1, 1, 3, 1, 3, 1, 1, 1, 1, 1, 1, 1, 3, 1, 1, 1, 1, 1, 1, 1, 1, 1, 1, 1, 1, 1, 1]

/-- Template `GetFormatType` (main.cpp second variant, lines 294-317).
Its BOM patterns are compared with `std::equal(A, A + sizeof(A), begin)`
where `sizeof` counts the terminating NUL of the string literal, so the
UTF-8 pattern is 4 bytes `EF BB BF 00` and the UTF-16 patterns are
3 bytes each; there is no buffer-length guard, so `none` models a read
past the end of the buffer.  The trailing classification is the
`std::all_of` over `!utf8d[256 + 16 + utf8d[byte]]`. -/
def GetFormatType (buf : List Nat) : Option UnicodeType :=
  match equalChk [0xEF, 0xBB, 0xBF, 0x00] buf with
  | none => none
  | some true => some .Utf8_BOM
  | some false =>
  match equalChk [0xFF, 0xFE, 0x00] buf with
  | none => none
  | some true => some .Utf16_LE_BOM
  | some false =>
  match equalChk [0xFE, 0xFF, 0x00] buf with
  | none => none
  | some true => some .Utf16_BE_BOM
  | some false =>
    some (if buf.all (fun c => utf8d.getD (256 + 16 + utf8d.getD c 0) 0 == 0)
          then .Utf8 else .Mbcs)

end Dfa

/-- C1: for the primary `GetFormatType`, any buffer whose first three
bytes are `EF BB BF` is classified `Utf8_BOM`; but the template variant,
whose BOM comparison includes the string literal's terminating NUL as a
fourth pattern byte, classifies the buffer `EF BB BF 41` as `Mbcs`
instead, contradicting the claim. -/
theorem c1_template_bom_check_bug :
    GetFormatType [0xEF, 0xBB, 0xBF, 0x41] = UnicodeType.Utf8_BOM ∧
    Dfa.GetFormatType [0xEF, 0xBB, 0xBF, 0x41] = some Dfa.UnicodeType.Mbcs := by
  constructor
  · rfl
  · rfl

/-- When the buffer is at least as long as the pattern, the read-tracked
comparison never runs out of bounds and agrees with the prefix test. -/
theorem equalChk_of_le : ∀ (pat buf : List Nat), pat.length ≤ buf.length →
    equalChk pat buf = some (pat.isPrefixOf buf)
  | [], _, _ => by simp [equalChk, List.isPrefixOf]
  | _ :: _, [], h => by simp at h
  | p :: ps, b :: bs, h => by
    by_cases hpb : p = b
    · simp only [equalChk, if_pos hpb, List.isPrefixOf]
      rw [equalChk_of_le ps bs (by simpa using h)]
      simp [hpb]
    · simp [equalChk, hpb, List.isPrefixOf]

/-- The read-tracked primary detector never reads out of bounds: on every
buffer it returns `some` of the pure detector's verdict, because each BOM
comparison is guarded by the matching length test. -/
theorem getFormatTypeChk_eq (buf : List Nat) :
    GetFormatTypeChk buf = some (GetFormatType buf) := by
  have e8 : 3 ≤ buf.length →
      equalChk [0xEF, 0xBB, 0xBF] buf = some ([0xEF, 0xBB, 0xBF].isPrefixOf buf) :=
    fun h => equalChk_of_le _ _ (by simpa using h)
  have eLE : 2 ≤ buf.length →
      equalChk [0xFF, 0xFE] buf = some ([0xFF, 0xFE].isPrefixOf buf) :=
    fun h => equalChk_of_le _ _ (by simpa using h)
  have eBE : 2 ≤ buf.length →
      equalChk [0xFE, 0xFF] buf = some ([0xFE, 0xFF].isPrefixOf buf) :=
    fun h => equalChk_of_le _ _ (by simpa using h)
  unfold GetFormatTypeChk GetFormatTypeChk2 GetFormatType
  by_cases h3 : 3 ≤ buf.length
  · have h2 : 2 ≤ buf.length := by omega
    rw [if_pos h3, e8 h3, if_pos h2, eLE h2, eBE h2]
    cases hb8 : [0xEF, 0xBB, 0xBF].isPrefixOf buf <;>
      cases hbLE : [0xFF, 0xFE].isPrefixOf buf <;>
        cases hbBE : [0xFE, 0xFF].isPrefixOf buf <;>
          simp [h3, h2, hb8, hbLE, hbBE]
  · rw [if_neg h3]
    by_cases h2 : 2 ≤ buf.length
    · rw [if_pos h2, eLE h2, eBE h2]
      cases hbLE : [0xFF, 0xFE].isPrefixOf buf <;>
        cases hbBE : [0xFE, 0xFF].isPrefixOf buf <;>
          simp [h3, h2, hbLE, hbBE]
    · rw [if_neg h2]
      simp [h3, h2]

/-- C9: every `std::equal` in the primary `GetFormatType` stays inside
the buffer, because a check whose required prefix length exceeds the
buffer length is skipped by the `size >= 3` / `size >= 2` guards (first
conjunct: the read-tracked run never reports an out-of-range read and
agrees with the detector on every buffer).  The template variant has no
such guards: on the 3-byte buffer `EF BB BF` its first comparison reads
a fourth byte past the end (second conjunct), contradicting the claim
for that variant. -/
theorem c9_bounds :
    (∀ buf : List Nat, GetFormatTypeChk buf = some (GetFormatType buf)) ∧
    Dfa.GetFormatType [0xEF, 0xBB, 0xBF] = none :=
  ⟨getFormatTypeChk_eq, rfl⟩

/-- A Unicode scalar value: in range and not a surrogate. -/
def UnicodeScalar (c : Nat) : Prop := c < 0x110000 ∧ ¬(0xD800 ≤ c ∧ c < 0xE000)

instance (c : Nat) : Decidable (UnicodeScalar c) := by
  unfold UnicodeScalar
  infer_instance

/-- UTF-8 encoding of one scalar value (1 to 4 bytes). -/
def utf8EncodeChar (c : Nat) : List Nat :=
  if c < 0x80 then [c]
  else if c < 0x800 then [0xC0 + c / 0x40, 0x80 + c % 0x40]
  else if c < 0x10000 then
    [0xE0 + c / 0x1000, 0x80 + (c / 0x40) % 0x40, 0x80 + c % 0x40]
  else
    [0xF0 + c / 0x40000, 0x80 + (c / 0x1000) % 0x40,
     0x80 + (c / 0x40) % 0x40, 0x80 + c % 0x40]

/-- UTF-8 encoding of a scalar sequence. -/
def utf8Encode (cps : List Nat) : List Nat := (cps.map utf8EncodeChar).flatten

/-- One step of strict UTF-8 decoding, modelling the byte-sequence
grammar enforced by the `std::codecvt_utf8_utf16<char16_t>` facet used
by `ConvertFromBytes` (main.cpp lines 83-92): given a lead byte and the
following bytes, either the decoded code point and the remaining bytes,
or `none` for a malformed sequence.  Continuation bytes must be
`80..BF`; overlong forms, surrogates and values above `0x10FFFF` are
rejected through the equivalent value-range conditions. -/
def utf8DecodeOne (b0 : Nat) (t : List Nat) : Option (Nat × List Nat) :=
  if b0 < 0x80 then some (b0, t)
  else if b0 < 0xC0 then none
  else if b0 < 0xE0 then
    if 1 ≤ t.length ∧ 0x80 ≤ t.getD 0 0 ∧ t.getD 0 0 < 0xC0 ∧
        0x80 ≤ (b0 - 0xC0) * 0x40 + (t.getD 0 0 - 0x80) then
      some ((b0 - 0xC0) * 0x40 + (t.getD 0 0 - 0x80), t.drop 1)
    else none
  else if b0 < 0xF0 then
    if 2 ≤ t.length ∧ 0x80 ≤ t.getD 0 0 ∧ t.getD 0 0 < 0xC0 ∧
        0x80 ≤ t.getD 1 0 ∧ t.getD 1 0 < 0xC0 ∧
        0x800 ≤ (b0 - 0xE0) * 0x1000 + (t.getD 0 0 - 0x80) * 0x40 + (t.getD 1 0 - 0x80) ∧
        ¬(0xD800 ≤ (b0 - 0xE0) * 0x1000 + (t.getD 0 0 - 0x80) * 0x40 + (t.getD 1 0 - 0x80) ∧
          (b0 - 0xE0) * 0x1000 + (t.getD 0 0 - 0x80) * 0x40 + (t.getD 1 0 - 0x80) < 0xE000) then
      some ((b0 - 0xE0) * 0x1000 + (t.getD 0 0 - 0x80) * 0x40 + (t.getD 1 0 - 0x80), t.drop 2)
    else none
  else
    if 3 ≤ t.length ∧ 0x80 ≤ t.getD 0 0 ∧ t.getD 0 0 < 0xC0 ∧
        0x80 ≤ t.getD 1 0 ∧ t.getD 1 0 < 0xC0 ∧
        0x80 ≤ t.getD 2 0 ∧ t.getD 2 0 < 0xC0 ∧
        0x10000 ≤ (b0 - 0xF0) * 0x40000 + (t.getD 0 0 - 0x80) * 0x1000 +
          (t.getD 1 0 - 0x80) * 0x40 + (t.getD 2 0 - 0x80) ∧
        (b0 - 0xF0) * 0x40000 + (t.getD 0 0 - 0x80) * 0x1000 +
          (t.getD 1 0 - 0x80) * 0x40 + (t.getD 2 0 - 0x80) < 0x110000 then
      some ((b0 - 0xF0) * 0x40000 + (t.getD 0 0 - 0x80) * 0x1000 +
        (t.getD 1 0 - 0x80) * 0x40 + (t.getD 2 0 - 0x80), t.drop 3)
    else none

/-- Strict UTF-8 decoding of a whole byte run, by repeated
`utf8DecodeOne` steps.  The first argument is fuel bounding the number
of decoded characters; each step consumes at least the lead byte, so the
byte count is always sufficient fuel. -/
def utf8DecodeLoop : Nat → List Nat → Option (List Nat)
  | _, [] => some []
  | 0, _ :: _ => none
  | fuel + 1, b0 :: t =>
    match utf8DecodeOne b0 t with
    | none => none
    | some (cp, rest) => (utf8DecodeLoop fuel rest).map (cp :: ·)

/-- Strict UTF-8 decoding of a byte run to code points. -/
def utf8DecodeCps (l : List Nat) : Option (List Nat) := utf8DecodeLoop l.length l

/-- UTF-16 code units of one scalar value (one unit, or a surrogate
pair for supplementary values). -/
def utf16EncodeChar (c : Nat) : List Nat :=
  if c < 0x10000 then [c]
  else [0xD800 + (c - 0x10000) / 0x400, 0xDC00 + (c - 0x10000) % 0x400]

/-- UTF-16 code units of a scalar sequence. -/
def utf16Encode (cps : List Nat) : List Nat := (cps.map utf16EncodeChar).flatten

/-- One step of UTF-16 code-unit decoding: a non-surrogate unit stands
alone, a high surrogate must be followed by a low surrogate, and lone
surrogates are rejected. -/
def utf16DecodeOne (u : Nat) (t : List Nat) : Option (Nat × List Nat) :=
  if u < 0xD800 ∨ 0xE000 ≤ u then some (u, t)
  else if u < 0xDC00 then
    if 1 ≤ t.length ∧ 0xDC00 ≤ t.getD 0 0 ∧ t.getD 0 0 < 0xE000 then
      some ((u - 0xD800) * 0x400 + (t.getD 0 0 - 0xDC00) + 0x10000, t.drop 1)
    else none
  else none

/-- Decoding a UTF-16 code-unit sequence to code points by repeated
`utf16DecodeOne` steps; the fuel bounds the number of decoded
characters and the unit count is always sufficient. -/
def utf16DecodeLoop : Nat → List Nat → Option (List Nat)
  | _, [] => some []
  | 0, _ :: _ => none
  | fuel + 1, u :: t =>
    match utf16DecodeOne u t with
    | none => none
    | some (cp, rest) => (utf16DecodeLoop fuel rest).map (cp :: ·)

/-- Decoding a UTF-16 code-unit sequence back to code points (surrogate
pairs recombined, lone surrogates rejected). -/
def utf16DecodeUnits (l : List Nat) : Option (List Nat) := utf16DecodeLoop l.length l

/-- The full byte-run conversion performed by the `Utf8` branch of
`ConvertFromBytes`: UTF-8 bytes to UTF-16 code units. -/
def utf8ToUtf16 (buf : List Nat) : Option (List Nat) :=
  (utf8DecodeCps buf).map utf16Encode

/-- Big-endian pairing of bytes into 16-bit code units, the behaviour of
`std::codecvt_utf16<char16_t>` with no mode flags; an odd trailing byte
is a conversion error. -/
def utf16PairsBE : List Nat → Option (List Nat)
  | [] => some []
  | [_] => none
  | b0 :: b1 :: rest => (utf16PairsBE rest).map ((b0 * 0x100 + b1) :: ·)

/-- Little-endian pairing of bytes into 16-bit code units. -/
def utf16PairsLE : List Nat → Option (List Nat)
  | [] => some []
  | [_] => none
  | b0 :: b1 :: rest => (utf16PairsLE rest).map ((b0 + 0x100 * b1) :: ·)

/-- `std::codecvt_utf16<char16_t, 0x10ffff, std::consume_header>`: a
leading `FF FE` selects little-endian and is consumed, a leading `FE FF`
selects big-endian and is consumed, otherwise the default big-endian
order is used. -/
def utf16BytesDecode (buf : List Nat) : Option (List Nat) :=
  if [0xFF, 0xFE].isPrefixOf buf = true then utf16PairsLE (buf.drop 2)
  else if [0xFE, 0xFF].isPrefixOf buf = true then utf16PairsBE (buf.drop 2)
  else utf16PairsBE buf

/-- `ConvertFromBytes` (main.cpp lines 69-105): detect the format, then
switch on it, instantiating the matching codec.  The `Mbcs` branch uses
the platform's ambient narrow-to-UTF-16 codec
(`std::codecvt<char16_t, char, mbstate_t>`), which is not determined by
the source and is therefore passed in as `mbcs`.  The `Utf8_BOM` branch
(`std::consume_header`) strips the leading `EF BB BF` before decoding;
the `Ucs2` case reaches the switch's fallthrough converter
`std::codecvt_utf16<char16_t>`.  `none` models `std::range_error` thrown
by `from_bytes` on malformed input. -/
def ConvertFromBytes (mbcs : List Nat → Option (List Nat))
    (buf : List Nat) : Option (List Nat) :=
  match GetFormatType buf with
  | .Mbcs => mbcs buf
  | .Utf8 => utf8ToUtf16 buf
  | .Utf8_BOM =>
      utf8ToUtf16 (if [0xEF, 0xBB, 0xBF].isPrefixOf buf = true then buf.drop 3 else buf)
  | .Utf16_LE_BOM => utf16BytesDecode buf
  | .Utf16_BE_BOM => utf16BytesDecode buf
  | .Ucs2 => utf16PairsBE buf

/-- The buffer-handling pipeline of `main` (main.cpp lines 157-166): an
empty byte buffer is rejected (`return -1`, modelled `none`) before
`ConvertFromBytes` — and hence before any BOM or validity check — is
reached. -/
def ProcessFileBytes (mbcs : List Nat → Option (List Nat))
    (buf : List Nat) : Option (List Nat) :=
  if buf.isEmpty then none else ConvertFromBytes mbcs buf

/-- A prefix test only looks at the first `pat.length` elements, so it is
unchanged by truncating the buffer to any length at least that long. -/
theorem isPrefixOf_take : ∀ (pat : List Nat) (n : Nat) (b : List Nat),
    pat.length ≤ n → pat.isPrefixOf (b.take n) = pat.isPrefixOf b
  | [], _, _, _ => by simp [List.isPrefixOf]
  | _ :: _, 0, _, h => by simp at h
  | _ :: _, _ + 1, [], _ => by simp [List.isPrefixOf]
  | p :: ps, n + 1, x :: xs, h => by
    simp only [List.take_succ_cons, List.isPrefixOf]
    rw [isPrefixOf_take ps n xs (by simpa using h)]

/-- The primary detector looks only at the three-byte BOM window: its
verdict on any buffer equals its verdict on the buffer's first three
bytes. -/
theorem getFormatType_take3 (b : List Nat) :
    GetFormatType (b.take 3) = GetFormatType b := by
  have hlen : (b.take 3).length = min 3 b.length := by simp
  unfold GetFormatType
  rw [isPrefixOf_take [0xEF, 0xBB, 0xBF] 3 b (by simp),
      isPrefixOf_take [0xFF, 0xFE] 3 b (by simp),
      isPrefixOf_take [0xFE, 0xFF] 3 b (by simp)]
  by_cases h3 : 3 ≤ b.length
  · have h3t : 3 ≤ (b.take 3).length := by rw [hlen]; omega
    have h2 : 2 ≤ b.length := by omega
    have h2t : 2 ≤ (b.take 3).length := by rw [hlen]; omega
    simp [h3, h3t, h2, h2t]
  · have h3t : ¬3 ≤ (b.take 3).length := by rw [hlen]; omega
    by_cases h2 : 2 ≤ b.length
    · have h2t : 2 ≤ (b.take 3).length := by rw [hlen]; omega
      simp [h3, h3t, h2, h2t]
    · have h2t : ¬2 ≤ (b.take 3).length := by rw [hlen]; omega
      simp [h3, h3t, h2, h2t]

/-- C8: the `main` pipeline rejects the empty byte buffer before any
detection or transcoding work (first conjunct); detection in isolation
would not fail on an empty range (second conjunct: it would return
`Utf8`), so the failure observed by the caller comes from the dedicated
empty-input guard, not from a BOM check or DFA run. -/
theorem c8_empty_input :
    (∀ mbcs : List Nat → Option (List Nat), ProcessFileBytes mbcs [] = none) ∧
    GetFormatType [] = UnicodeType.Utf8 :=
  ⟨fun _ => rfl, rfl⟩

/-- C10: in the primary variant, a buffer starting with none of the three
recognized BOMs is classified `Utf8` unconditionally; `ConvertFromBytes`
consequently decodes it through the UTF-8 codec; the detector never
returns `Mbcs` or `Ucs2` on any buffer; and it never inspects any byte
beyond the three-byte BOM prefix window. -/
theorem c10_bomless_utf8 (buf : List Nat) (mbcs : List Nat → Option (List Nat))
    (h8 : [0xEF, 0xBB, 0xBF].isPrefixOf buf = false)
    (hLE : [0xFF, 0xFE].isPrefixOf buf = false)
    (hBE : [0xFE, 0xFF].isPrefixOf buf = false) :
    GetFormatType buf = UnicodeType.Utf8 ∧
    ConvertFromBytes mbcs buf = utf8ToUtf16 buf ∧
    (∀ b : List Nat, GetFormatType b ≠ UnicodeType.Mbcs ∧
      GetFormatType b ≠ UnicodeType.Ucs2) ∧
    (∀ b : List Nat, GetFormatType (b.take 3) = GetFormatType b) := by
  have hft : GetFormatType buf = UnicodeType.Utf8 := by
    unfold GetFormatType
    simp [h8, hLE, hBE]
  refine ⟨hft, ?_, ?_, getFormatType_take3⟩
  · unfold ConvertFromBytes
    rw [hft]
  · intro b
    unfold GetFormatType
    split_ifs <;> exact ⟨by decide, by decide⟩

/-- C10 witness: the one-byte buffer `41` has no BOM and is detected and
transcoded as UTF-8. -/
theorem c10_bomless_utf8_witness :
    GetFormatType [0x41] = UnicodeType.Utf8 ∧
    ConvertFromBytes (fun _ => none) [0x41] = utf8ToUtf16 [0x41] :=
  ⟨(c10_bomless_utf8 [0x41] (fun _ => none) rfl rfl rfl).1,
   (c10_bomless_utf8 [0x41] (fun _ => none) rfl rfl rfl).2.1⟩

/-- A list of nonempty lists flattens to at least one element per list. -/
theorem length_le_length_flatten : ∀ ls : List (List Nat),
    (∀ l ∈ ls, 1 ≤ l.length) → ls.length ≤ ls.flatten.length
  | [], _ => by simp
  | l :: rest, h => by
    simp only [List.flatten_cons, List.length_append, List.length_cons]
    have h1 := h l (by simp)
    have h2 := length_le_length_flatten rest (fun x hx => h x (by simp [hx]))
    omega

/-- Mapping a cons with equal heads over equal option lists. -/
theorem map_cons_congr (o : Option (List Nat)) {x y : Nat} (h : x = y) :
    o.map (x :: ·) = o.map (y :: ·) := by rw [h]

/-- One decode step inverts the encoding of one scalar value: the bytes
of `utf8EncodeChar c` in front of any tail decode to `c` with the tail
left over. -/
theorem utf8DecodeLoop_encodeChar (c : Nat) (hs : UnicodeScalar c)
    (R : List Nat) (f : Nat) :
    utf8DecodeLoop (f + 1) (utf8EncodeChar c ++ R) =
      (utf8DecodeLoop f R).map (c :: ·) := by
  obtain ⟨hlt, hsur⟩ := hs
  by_cases h1 : c < 0x80
  · have hone : utf8DecodeOne c R = some (c, R) := by
      unfold utf8DecodeOne
      rw [if_pos h1]
    simp only [utf8EncodeChar, if_pos h1, List.cons_append, List.nil_append,
      utf8DecodeLoop, hone]
  by_cases h2 : c < 0x800
  · have hone : utf8DecodeOne (0xC0 + c / 0x40) ((0x80 + c % 0x40) :: R) =
        some (c, R) := by
      unfold utf8DecodeOne
      simp only [List.getD_cons_zero, List.length_cons, List.drop_succ_cons,
        List.drop_zero, Nat.add_sub_cancel_left]
      split_ifs <;>
        first
          | (simp only [Option.some.injEq, Prod.mk.injEq, eq_self_iff_true, and_true]
             omega)
          | (exfalso; omega)
    simp only [utf8EncodeChar, if_neg h1, if_pos h2, List.cons_append,
      List.nil_append, utf8DecodeLoop, hone]
  by_cases h3 : c < 0x10000
  · have hone : utf8DecodeOne (0xE0 + c / 0x1000)
        ((0x80 + c / 0x40 % 0x40) :: (0x80 + c % 0x40) :: R) = some (c, R) := by
      unfold utf8DecodeOne
      simp only [List.getD_cons_zero, List.getD_cons_succ, List.length_cons,
        List.drop_succ_cons, List.drop_zero, Nat.add_sub_cancel_left]
      split_ifs <;>
        first
          | (simp only [Option.some.injEq, Prod.mk.injEq, eq_self_iff_true, and_true]
             omega)
          | (exfalso; omega)
    simp only [utf8EncodeChar, if_neg h1, if_neg h2, if_pos h3, List.cons_append,
      List.nil_append, utf8DecodeLoop, hone]
  · have hone : utf8DecodeOne (0xF0 + c / 0x40000)
        ((0x80 + c / 0x1000 % 0x40) :: (0x80 + c / 0x40 % 0x40) ::
          (0x80 + c % 0x40) :: R) = some (c, R) := by
      unfold utf8DecodeOne
      simp only [List.getD_cons_zero, List.getD_cons_succ, List.length_cons,
        List.drop_succ_cons, List.drop_zero, Nat.add_sub_cancel_left]
      split_ifs <;>
        first
          | (simp only [Option.some.injEq, Prod.mk.injEq, eq_self_iff_true, and_true]
             omega)
          | (exfalso; omega)
    simp only [utf8EncodeChar, if_neg h1, if_neg h2, if_neg h3, List.cons_append,
      List.nil_append, utf8DecodeLoop, hone]

/-- Every scalar value encodes to at least one byte. -/
theorem utf8EncodeChar_length_pos (c : Nat) : 1 ≤ (utf8EncodeChar c).length := by
  unfold utf8EncodeChar
  split_ifs <;> simp

/-- With enough fuel the decode loop inverts the encoding of any scalar
sequence. -/
theorem utf8DecodeLoop_encode (cps : List Nat) :
    ∀ fuel : Nat, (∀ c ∈ cps, UnicodeScalar c) → cps.length ≤ fuel →
      utf8DecodeLoop fuel (utf8Encode cps) = some cps := by
  induction cps with
  | nil =>
    intro fuel _ _
    cases fuel <;> rfl
  | cons c rest ih =>
    intro fuel h hf
    have hc : UnicodeScalar c := h c (by simp)
    have hrest : ∀ x ∈ rest, UnicodeScalar x := fun x hx => h x (by simp [hx])
    cases fuel with
    | zero => simp at hf
    | succ f =>
      have hrl : rest.length ≤ f := by
        have : rest.length + 1 ≤ f + 1 := by simpa using hf
        omega
      have step : utf8Encode (c :: rest) = utf8EncodeChar c ++ utf8Encode rest := by
        simp [utf8Encode]
      rw [step, utf8DecodeLoop_encodeChar c hc _ f, ih f hrest hrl]
      rfl

/-- Decoding inverts encoding on every sequence of scalar values. -/
theorem utf8DecodeCps_encode (cps : List Nat) (h : ∀ c ∈ cps, UnicodeScalar c) :
    utf8DecodeCps (utf8Encode cps) = some cps := by
  unfold utf8DecodeCps
  apply utf8DecodeLoop_encode cps _ h
  calc cps.length = (cps.map utf8EncodeChar).length := by simp
    _ ≤ (utf8Encode cps).length := by
        unfold utf8Encode
        exact length_le_length_flatten _ fun l hl => by
          obtain ⟨x, _, rfl⟩ := List.mem_map.mp hl
          exact utf8EncodeChar_length_pos x

/-- Unfolding one step of the UTF-16 decode loop on a cons cell. -/
theorem utf16DecodeLoop_cons (f : Nat) (u : Nat) (t : List Nat) :
    utf16DecodeLoop (f + 1) (u :: t) =
      match utf16DecodeOne u t with
      | none => none
      | some (cp, rest) => (utf16DecodeLoop f rest).map (cp :: ·) := rfl

/-- A high surrogate followed by a low surrogate decodes to the combined
supplementary code point. -/
theorem utf16DecodeOne_cons (u u2 : Nat) (R : List Nat)
    (hno : ¬(u < 0xD800 ∨ 0xE000 ≤ u)) (hhi : u < 0xDC00)
    (hlo1 : 0xDC00 ≤ u2) (hlo2 : u2 < 0xE000) :
    utf16DecodeOne u (u2 :: R) =
      some ((u - 0xD800) * 0x400 + (u2 - 0xDC00) + 0x10000, R) := by
  unfold utf16DecodeOne
  rw [if_neg hno, if_pos hhi,
    if_pos ⟨by simp, by simpa using hlo1, by simpa using hlo2⟩]
  simp

/-- One UTF-16 decode step inverts the unit encoding of one scalar
value. -/
theorem utf16DecodeLoop_encodeChar (c : Nat) (hs : UnicodeScalar c)
    (R : List Nat) (f : Nat) :
    utf16DecodeLoop (f + 1) (utf16EncodeChar c ++ R) =
      (utf16DecodeLoop f R).map (c :: ·) := by
  obtain ⟨hlt, hsur⟩ := hs
  by_cases h1 : c < 0x10000
  · have hor : c < 0xD800 ∨ 0xE000 ≤ c := by omega
    have hone : utf16DecodeOne c R = some (c, R) := by
      unfold utf16DecodeOne
      rw [if_pos hor]
    simp only [utf16EncodeChar, if_pos h1, List.cons_append, List.nil_append]
    rw [utf16DecodeLoop_cons, hone]
  · have hq : (c - 0x10000) / 0x400 < 0x400 := by omega
    simp only [utf16EncodeChar, if_neg h1, List.cons_append, List.nil_append]
    rw [utf16DecodeLoop_cons,
      utf16DecodeOne_cons _ _ R (by omega) (by omega) (by omega) (by omega)]
    exact map_cons_congr _ (by omega)

/-- Every scalar value encodes to at least one UTF-16 unit. -/
theorem utf16EncodeChar_length_pos (c : Nat) : 1 ≤ (utf16EncodeChar c).length := by
  unfold utf16EncodeChar
  split_ifs <;> simp

/-- With enough fuel the UTF-16 decode loop inverts the unit encoding of
any scalar sequence. -/
theorem utf16DecodeLoop_encode (cps : List Nat) :
    ∀ fuel : Nat, (∀ c ∈ cps, UnicodeScalar c) → cps.length ≤ fuel →
      utf16DecodeLoop fuel (utf16Encode cps) = some cps := by
  induction cps with
  | nil =>
    intro fuel _ _
    cases fuel <;> rfl
  | cons c rest ih =>
    intro fuel h hf
    have hc : UnicodeScalar c := h c (by simp)
    have hrest : ∀ x ∈ rest, UnicodeScalar x := fun x hx => h x (by simp [hx])
    cases fuel with
    | zero => simp at hf
    | succ f =>
      have hrl : rest.length ≤ f := by
        have : rest.length + 1 ≤ f + 1 := by simpa using hf
        omega
      have step : utf16Encode (c :: rest) = utf16EncodeChar c ++ utf16Encode rest := by
        simp [utf16Encode]
      rw [step, utf16DecodeLoop_encodeChar c hc _ f, ih f hrest hrl]
      rfl

/-- UTF-16 decoding inverts UTF-16 encoding on scalar sequences. -/
theorem utf16DecodeUnits_encode (cps : List Nat) (h : ∀ c ∈ cps, UnicodeScalar c) :
    utf16DecodeUnits (utf16Encode cps) = some cps := by
  unfold utf16DecodeUnits
  apply utf16DecodeLoop_encode cps _ h
  calc cps.length = (cps.map utf16EncodeChar).length := by simp
    _ ≤ (utf16Encode cps).length := by
        unfold utf16Encode
        exact length_le_length_flatten _ fun l hl => by
          obtain ⟨x, _, rfl⟩ := List.mem_map.mp hl
          exact utf16EncodeChar_length_pos x

/-- A cons prefix test forces equal heads. -/
theorem isPrefixOf_cons_head (x a : Nat) (ps bs : List Nat)
    (h : List.isPrefixOf (x :: ps) (a :: bs) = true) : x = a := by
  simp [List.isPrefixOf] at h
  exact h.1

/-- A three-element prefix test forces the first three elements. -/
theorem isPrefixOf3_true (x y z a b d : Nat) (L : List Nat)
    (h : List.isPrefixOf [x, y, z] (a :: b :: d :: L) = true) :
    x = a ∧ y = b ∧ z = d := by
  simp [List.isPrefixOf] at h
  exact ⟨h.1, h.2.1, h.2.2⟩

/-- The UTF-8 encoding of a scalar value other than U+FEFF never starts
with any of the three recognized BOM byte patterns. -/
theorem utf8EncodeChar_no_bom (c : Nat) (L : List Nat) (hs : UnicodeScalar c)
    (hne : c ≠ 0xFEFF) :
    ¬([0xEF, 0xBB, 0xBF].isPrefixOf (utf8EncodeChar c ++ L) = true) ∧
    ¬([0xFF, 0xFE].isPrefixOf (utf8EncodeChar c ++ L) = true) ∧
    ¬([0xFE, 0xFF].isPrefixOf (utf8EncodeChar c ++ L) = true) := by
  obtain ⟨hlt, hsur⟩ := hs
  by_cases h1 : c < 0x80
  · simp only [utf8EncodeChar, if_pos h1, List.cons_append, List.nil_append]
    exact ⟨fun h => by have := isPrefixOf_cons_head _ _ _ _ h; omega,
      fun h => by have := isPrefixOf_cons_head _ _ _ _ h; omega,
      fun h => by have := isPrefixOf_cons_head _ _ _ _ h; omega⟩
  by_cases h2 : c < 0x800
  · simp only [utf8EncodeChar, if_neg h1, if_pos h2, List.cons_append, List.nil_append]
    exact ⟨fun h => by have := isPrefixOf_cons_head _ _ _ _ h; omega,
      fun h => by have := isPrefixOf_cons_head _ _ _ _ h; omega,
      fun h => by have := isPrefixOf_cons_head _ _ _ _ h; omega⟩
  by_cases h3 : c < 0x10000
  · simp only [utf8EncodeChar, if_neg h1, if_neg h2, if_pos h3, List.cons_append,
      List.nil_append]
    refine ⟨fun h => ?_, fun h => by have := isPrefixOf_cons_head _ _ _ _ h; omega,
      fun h => by have := isPrefixOf_cons_head _ _ _ _ h; omega⟩
    obtain ⟨e1, e2, e3⟩ := isPrefixOf3_true _ _ _ _ _ _ _ h
    omega
  · simp only [utf8EncodeChar, if_neg h1, if_neg h2, if_neg h3, List.cons_append,
      List.nil_append]
    exact ⟨fun h => by have := isPrefixOf_cons_head _ _ _ _ h; omega,
      fun h => by have := isPrefixOf_cons_head _ _ _ _ h; omega,
      fun h => by have := isPrefixOf_cons_head _ _ _ _ h; omega⟩

/-- Detection classifies the BOM-free UTF-8 encoding of a scalar
sequence not starting with U+FEFF as plain `Utf8`. -/
theorem getFormatType_utf8Encode (cps : List Nat) (hs : ∀ c ∈ cps, UnicodeScalar c)
    (h0 : cps.head? ≠ some 0xFEFF) :
    GetFormatType (utf8Encode cps) = UnicodeType.Utf8 := by
  cases cps with
  | nil => rfl
  | cons c rest =>
    have hc : UnicodeScalar c := hs c (by simp)
    have hne : c ≠ 0xFEFF := fun hEq => h0 (by simp [hEq])
    have hstep : utf8Encode (c :: rest) = utf8EncodeChar c ++ utf8Encode rest := by
      simp [utf8Encode]
    obtain ⟨hA, hB, hC⟩ := utf8EncodeChar_no_bom c (utf8Encode rest) hc hne
    rw [hstep]
    unfold GetFormatType
    rw [if_neg (fun hcond => hA hcond.2), if_neg (fun hcond => hB hcond.2),
      if_neg (fun hcond => hC hcond.2)]

/-- C7 (amended): for every sequence of Unicode scalar values that does
not begin with U+FEFF, encoding as BOM-free UTF-8, then running detection
and transcoding, yields exactly the UTF-16 encoding of the original code
points, and those UTF-16 units decode back to the original sequence.
The U+FEFF restriction is forced: that code point encodes to the UTF-8
BOM bytes, which detection classifies `Utf8_BOM` and transcoding then
strips. -/
theorem c7_roundtrip_amended (cps : List Nat) (hs : ∀ c ∈ cps, UnicodeScalar c)
    (h0 : cps.head? ≠ some 0xFEFF) (mbcs : List Nat → Option (List Nat)) :
    GetFormatType (utf8Encode cps) = UnicodeType.Utf8 ∧
    ConvertFromBytes mbcs (utf8Encode cps) = some (utf16Encode cps) ∧
    utf16DecodeUnits (utf16Encode cps) = some cps := by
  have hft := getFormatType_utf8Encode cps hs h0
  refine ⟨hft, ?_, utf16DecodeUnits_encode cps hs⟩
  unfold ConvertFromBytes
  rw [hft]
  unfold utf8ToUtf16
  rw [utf8DecodeCps_encode cps hs]
  rfl

/-- C7 witness: the two-scalar sequence `[0x48, 0x1F600]` (one ASCII
letter and one supplementary-plane code point) round-trips exactly. -/
theorem c7_roundtrip_amended_witness :
    GetFormatType (utf8Encode [0x48, 0x1F600]) = UnicodeType.Utf8 ∧
    ConvertFromBytes (fun _ => none) (utf8Encode [0x48, 0x1F600]) =
      some (utf16Encode [0x48, 0x1F600]) ∧
    utf16DecodeUnits (utf16Encode [0x48, 0x1F600]) = some [0x48, 0x1F600] :=
  c7_roundtrip_amended [0x48, 0x1F600] (by decide) (by decide) (fun _ => none)

/-- C7 counterexample: the claim fails for the sequence `[0xFEFF]`: its
BOM-free UTF-8 encoding is the byte sequence `EF BB BF`, the detector
classifies those bytes `Utf8_BOM`, and the consume-header transcoding
strips them, returning the empty unit sequence instead of `[0xFEFF]`. -/
theorem c7_counterexample :
    utf8Encode [0xFEFF] = [0xEF, 0xBB, 0xBF] ∧
    ConvertFromBytes (fun _ => none) (utf8Encode [0xFEFF]) = some [] ∧
    utf16Encode [0xFEFF] = [0xFEFF] ∧
    some ([] : List Nat) ≠ some [0xFEFF] := by
  exact ⟨rfl, rfl, rfl, by simp⟩

/-- The conditional consumption performed after a carriage-return-like
unit (main.cpp lines 126-128): `sgetc` peeks one unit and `sbumpc`
consumes it exactly when it is `\n` or `0x0A00`. -/
def dropLeadingLf : List Nat → List Nat
  | u :: t => if u = 0xA ∨ u = 0xA00 then t else u :: t
  | [] => []

/-- `SafeGetLine` (main.cpp lines 107-140), applied to the stream of
code units still deliverable by the `wifstream` buffer.  Units `0xFEFF`
and `0xFFFE` are skipped; `0x0A00` or `\n` end the line; `0x0D00` or
`\r` end the line and consume one following `\n`/`0x0A00`; exhaustion
of the unit stream is `WEOF` (a transcoding failure inside the stream
buffer also surfaces as `WEOF`, indistinguishable to this function),
ending the final line and setting the stream's eof/fail/bad bits —
modelled by the returned `Bool` — exactly when that final line is empty;
all other units are appended to the line.  Returns
`(line, failBitsSet, remaining units)`. -/
def SafeGetLineGo (line : List Nat) : List Nat → List Nat × Bool × List Nat
  | [] => (line, line.isEmpty, [])
  | c :: rest =>
    if c = 0xFEFF ∨ c = 0xFFFE then SafeGetLineGo line rest
    else if c = 0xA00 ∨ c = 0xA then (line, false, rest)
    else if c = 0xD00 ∨ c = 0xD then (line, false, dropLeadingLf rest)
    else SafeGetLineGo (line ++ [c]) rest

/-- `SafeGetLine` starts with the cleared `line` accumulator. -/
def SafeGetLine (src : List Nat) : List Nat × Bool × List Nat := SafeGetLineGo [] src

/-- A code unit with no special role in `SafeGetLine`. -/
def plainUnit (u : Nat) : Prop :=
  u ≠ 0xA ∧ u ≠ 0xA00 ∧ u ≠ 0xD ∧ u ≠ 0xD00 ∧ u ≠ 0xFEFF ∧ u ≠ 0xFFFE

instance (u : Nat) : Decidable (plainUnit u) := by
  unfold plainUnit
  infer_instance

/-- The loop of `main` over `SafeGetLine` after the one-shot fallback
has been spent (main.cpp lines 204-230 with `first == false`): keep
returning lines until a read comes back with fail/bad set; that failure
is terminal.  The fuel bounds the number of reads; a successful read
always consumes at least one unit, so `length + 1` reads always
suffice. -/
def ReadLinesNoRetryFuel : Nat → List Nat → List (List Nat)
  | 0, _ => []
  | fuel + 1, src =>
    if (SafeGetLine src).2.1 then []
    else (SafeGetLine src).1 :: ReadLinesNoRetryFuel fuel (SafeGetLine src).2.2

/-- Line reading with no recovery remaining. -/
def ReadLinesNoRetry (src : List Nat) : List (List Nat) :=
  ReadLinesNoRetryFuel (src.length + 1) src

/-- The full reading loop of `main` (main.cpp lines 204-230): the first
`SafeGetLine` call reads from the primary stream (the file opened under
the UTF-8-to-UTF-16 consume-header codec); if that first read comes back
with fail/bad set, the stream is closed, reopened from the start under
the UTF-16 consume-header codec — yielding the `fallback` unit stream —
and reading continues there with no further recovery (`first` is false
from the loop's second iteration on).  Returns the printed lines and
whether the fallback reopen happened. -/
def ReadAllLines (primary fallback : List Nat) : List (List Nat) × Bool :=
  if (SafeGetLine primary).2.1 then (ReadLinesNoRetry fallback, true)
  else ((SafeGetLine primary).1 :: ReadLinesNoRetry (SafeGetLine primary).2.2, false)

/-- A decoded-unit source: the units the stream buffer will deliver, and
whether they end in a transcoding failure (`failsAtEnd = true`) or in a
clean end of stream (`failsAtEnd = false`).  Either ending surfaces to
`SafeGetLine` as `WEOF`; the flag records the spec-level distinction
between the `Failed` and `EndOfStream` reader states. -/
structure WSource where
  units : List Nat
  failsAtEnd : Bool

/-- The reading loop over a pair of sources. -/
def ReadAllLinesFrom (p fb : WSource) : List (List Nat) × Bool :=
  ReadAllLines p.units fb.units

/-- Whether the very first line-read attempt on the source ends in the
spec's `Failed` state: it drains the decoded stream with an empty
partial line, and the drain is a transcoding failure rather than a
clean end of stream. -/
def firstReadEndsFailed (s : WSource) : Bool :=
  (SafeGetLine s.units).2.1 && s.failsAtEnd

/-- Plain units only accumulate: `SafeGetLineGo` walks over a run of
plain units without terminating a line. -/
theorem safeGetLineGo_plain : ∀ (l : List Nat), (∀ u ∈ l, plainUnit u) →
    ∀ (acc rest : List Nat),
      SafeGetLineGo acc (l ++ rest) = SafeGetLineGo (acc ++ l) rest
  | [], _, acc, rest => by simp
  | u :: l2, hp, acc, rest => by
    obtain ⟨n1, n2, n3, n4, n5, n6⟩ := hp u (by simp)
    simp only [List.cons_append, SafeGetLineGo]
    rw [if_neg (fun h => h.elim n5 n6), if_neg (fun h => h.elim n2 n1),
      if_neg (fun h => h.elim n4 n3)]
    simp only [List.append_eq]
    rw [safeGetLineGo_plain l2 (fun x hx => hp x (by simp [hx])) (acc ++ [u]) rest]
    simp

/-- C5 counterexample: the unit stream `41 0A00 42` contains neither
U+000A nor U+000D, yet `SafeGetLine` terminates the first line at the
`0x0A00` unit, returning line `[41]` with `[42]` left over instead of
the whole stream as one end-of-stream-terminated line. -/
theorem c5_counterexample :
    ([0x41, 0xA00, 0x42].all fun u => u != 0xA && u != 0xD) = true ∧
    SafeGetLine [0x41, 0xA00, 0x42] = ([0x41], false, [0x42]) ∧
    ([0x41] : List Nat) ≠ [0x41, 0xA00, 0x42] := by decide

/-- C5 (amended): in `SafeGetLine` the line terminators are exactly the
four units `0x000A`, `0x0A00`, `0x000D` and `0x0D00` — the latter two
additionally consume one following `0x000A`/`0x0A00` — together with end
of stream, which ends the final line; and the units `0xFEFF`/`0xFFFE`
are silently skipped. -/
theorem c5_terminators_amended (l r : List Nat) (hp : ∀ u ∈ l, plainUnit u) :
    SafeGetLine (l ++ 0xA :: r) = (l, false, r) ∧
    SafeGetLine (l ++ 0xA00 :: r) = (l, false, r) ∧
    SafeGetLine (l ++ 0xD :: r) = (l, false, dropLeadingLf r) ∧
    SafeGetLine (l ++ 0xD00 :: r) = (l, false, dropLeadingLf r) ∧
    SafeGetLine l = (l, l.isEmpty, []) ∧
    SafeGetLine (0xFEFF :: l ++ r) = SafeGetLine (l ++ r) ∧
    SafeGetLine (0xFFFE :: l ++ r) = SafeGetLine (l ++ r) := by
  unfold SafeGetLine
  refine ⟨?_, ?_, ?_, ?_, ?_, ?_, ?_⟩
  · rw [safeGetLineGo_plain l hp [] (0xA :: r)]
    simp [SafeGetLineGo]
  · rw [safeGetLineGo_plain l hp [] (0xA00 :: r)]
    simp [SafeGetLineGo]
  · rw [safeGetLineGo_plain l hp [] (0xD :: r)]
    simp [SafeGetLineGo]
  · rw [safeGetLineGo_plain l hp [] (0xD00 :: r)]
    simp [SafeGetLineGo]
  · have := safeGetLineGo_plain l hp [] []
    simp only [List.append_nil] at this
    rw [this]
    simp [SafeGetLineGo]
  · simp [SafeGetLineGo]
  · simp [SafeGetLineGo]

/-- C5 witness: the plain line `48 49` followed by `0x000D 0x000A` and
one more unit is returned as `[48, 49]` with the CRLF pair consumed. -/
theorem c5_terminators_amended_witness :
    SafeGetLine ([0x48, 0x49] ++ 0xD :: [0xA, 0x50]) =
      ([0x48, 0x49], false, [0x50]) := by
  have h := (c5_terminators_amended [0x48, 0x49] [0xA, 0x50] (by decide)).2.2.1
  rw [h]
  decide

/-- C2 counterexample: on a source whose decoded stream is empty and
ends cleanly (`EndOfStream`, not `Failed`), the first read attempt comes
back failing and `main` still performs the fallback reopen-and-retry —
so transcoding failure is not necessary for the recovery, contradicting
the "if and only if ... Failed state, not EndOfStream" claim. -/
theorem c2_counterexample :
    (ReadAllLinesFrom ⟨[], false⟩ ⟨[], false⟩).2 = true ∧
    firstReadEndsFailed ⟨[], false⟩ = false := by decide

/-- C2 (amended): the one-shot recovery triggers exactly when the first
`SafeGetLine` returns with fail/bad set — which happens exactly when the
first attempt drains the decoded stream with an empty line, whether that
drain is a transcoding failure or a clean end of stream; after a
recovery the remaining lines come from the reopened fallback stream read
with no further recovery, and without a recovery the first line is
followed by the remaining lines of the primary stream, again with no
recovery available. -/
theorem c2_recovery_amended (p fb : WSource) :
    ((ReadAllLinesFrom p fb).2 = true ↔ (SafeGetLine p.units).2.1 = true) ∧
    ((SafeGetLine p.units).2.1 = true →
      (ReadAllLinesFrom p fb).1 = ReadLinesNoRetry fb.units) ∧
    ((SafeGetLine p.units).2.1 = false →
      (ReadAllLinesFrom p fb).1 =
        (SafeGetLine p.units).1 :: ReadLinesNoRetry (SafeGetLine p.units).2.2) := by
  unfold ReadAllLinesFrom ReadAllLines
  cases hb : (SafeGetLine p.units).2.1 <;> simp [hb]

/-- C2 witness: a primary stream holding the single unit `41` reads one
line successfully, so no recovery happens and the output is the single
line `[41]`, even though that stream is marked as ending in a
transcoding failure. -/
theorem c2_recovery_amended_witness :
    (SafeGetLine ([0x41] : List Nat)).2.1 = false ∧
    (ReadAllLinesFrom ⟨[0x41], true⟩ ⟨[], false⟩).1 = [[0x41]] ∧
    (ReadAllLinesFrom ⟨[0x41], true⟩ ⟨[], false⟩).2 = false := by
  have h := c2_recovery_amended ⟨[0x41], true⟩ ⟨[], false⟩
  refine ⟨by decide, ?_, ?_⟩
  · rw [h.2.2 (by decide)]
    decide
  · cases hrec : (ReadAllLinesFrom ⟨[0x41], true⟩ ⟨[], false⟩).2 with
    | false => rfl
    | true => exact absurd (h.1.mp hrec) (by decide)

/-- The `TextEncoding` enumeration of src/EncodingDetect.h: `Ansi`
(CP_ACP), `UTF8` (65001), `UTF16LE` (1200), `UTF16BE` (1201), `UTF32LE`
(12000), `UTF32BE` (12001). -/
inductive TextEncoding where
  | Ansi
  | UTF8
  | UTF16LE
  | UTF16BE
  | UTF32LE
  | UTF32BE
deriving DecidableEq, Repr

/-- The `switch (codePages[i].nCodePage)` of `EncodeDetector::Detect`
(EncodingDetect.h lines 71-87): which detected code pages are
recognized, and as which encoding; 20127 is US-ASCII and 65001 is
`CP_UTF8`, both mapped to `UTF8`. -/
def codePageEncoding (cp : Nat) : Option TextEncoding :=
  if cp = 20127 ∨ cp = 65001 then some .UTF8
  else if cp = 1200 then some .UTF16LE
  else if cp = 1201 then some .UTF16BE
  else if cp = 12000 then some .UTF32LE
  else if cp = 12001 then some .UTF32BE
  else none

/-- The loop over the candidate array in rank order: the first
recognized code page wins. -/
def firstRecognized : List Nat → Option TextEncoding
  | [] => none
  | cp :: rest =>
    match codePageEncoding cp with
    | some e => some e
    | none => firstRecognized rest

/-- `EncodeDetector::Detect` (EncodingDetect.h lines 58-101).
`detectOk` abstracts whether the `IMultiLanguage2::DetectInputCodepage`
call SUCCEEDED; `cps` is the candidate code-page list it filled, in rank
order.  On success the first recognized candidate is returned, else
`Ansi` (the `return TextEncoding::Ansi` at line 100).  On failure the
fallback runs the buffer through the `codecvt_utf8_utf16` conversion: an
empty result gives `Ansi`, a nonempty result `UTF8`, and a conversion
failure (`std::range_error`, caught at lines 95-98) gives `Ansi`. -/
def EncodeDetector.Detect (detectOk : Bool) (cps : List Nat) (buf : List Nat) :
    TextEncoding :=
  if detectOk then
    match firstRecognized cps with
    | some e => e
    | none => .Ansi
  else
    match utf8ToUtf16 buf with
    | some us => if us.isEmpty then .Ansi else .UTF8
    | none => .Ansi

/-- C3: when the highest-ranked recognized candidate is UTF-32LE or
UTF-32BE, `EncodeDetector::Detect` returns exactly that `Utf32` variant
— the value that, per the data model, is a terminal unsupported-encoding
error — and never one of the usable encodings `Ansi`, `UTF8`, `UTF16LE`
or `UTF16BE`: there is no silent downgrade. -/
theorem c3_utf32_terminal (cps buf : List Nat) (e : TextEncoding)
    (h : firstRecognized cps = some e)
    (h32 : e = TextEncoding.UTF32LE ∨ e = TextEncoding.UTF32BE) :
    EncodeDetector.Detect true cps buf = e ∧
    EncodeDetector.Detect true cps buf ≠ TextEncoding.Ansi ∧
    EncodeDetector.Detect true cps buf ≠ TextEncoding.UTF8 ∧
    EncodeDetector.Detect true cps buf ≠ TextEncoding.UTF16LE ∧
    EncodeDetector.Detect true cps buf ≠ TextEncoding.UTF16BE := by
  have hd : EncodeDetector.Detect true cps buf = e := by
    simp [EncodeDetector.Detect, h]
  rcases h32 with he | he <;> subst he <;>
    exact ⟨hd, by rw [hd]; decide, by rw [hd]; decide, by rw [hd]; decide,
      by rw [hd]; decide⟩

/-- C3 witness: a candidate list whose top entry is code page 12000
(UTF-32LE) makes resolution return the terminal `UTF32LE` variant. -/
theorem c3_utf32_terminal_witness :
    EncodeDetector.Detect true [12000] [] = TextEncoding.UTF32LE :=
  (c3_utf32_terminal [12000] [] TextEncoding.UTF32LE (by decide) (Or.inl rfl)).1

/-- C6 counterexample: with the external detector available but
reporting only the unrecognized code page 932, the buffer `41` — valid
UTF-8, as the second conjunct shows — resolves to `Ansi` directly: the
candidate loop falls through to `return TextEncoding::Ansi` without
consulting the UTF-8 classifier, so the classifier verdict `Utf8` is not
honoured, contradicting the claim. -/
theorem c6_counterexample :
    EncodeDetector.Detect true [932] [0x41] = TextEncoding.Ansi ∧
    utf8ToUtf16 [0x41] = some [0x41] ∧
    EncodeDetector.Detect true [932] [0x41] ≠ TextEncoding.UTF8 := by decide

/-- C6 (amended): only when the external detector call itself fails does
resolution fall back to the UTF-8 trial conversion — a nonempty
successful conversion yields `UTF8`, a failed conversion yields `Ansi`;
when the detector call succeeds but none of its candidates is
recognized, resolution returns `Ansi` directly, without consulting the
UTF-8 classifier. -/
theorem c6_fallback_amended (cps buf us : List Nat)
    (hnone : firstRecognized cps = none) :
    EncodeDetector.Detect true cps buf = TextEncoding.Ansi ∧
    (utf8ToUtf16 buf = some us → us ≠ [] →
      EncodeDetector.Detect false cps buf = TextEncoding.UTF8) ∧
    (utf8ToUtf16 buf = none →
      EncodeDetector.Detect false cps buf = TextEncoding.Ansi) := by
  refine ⟨by simp [EncodeDetector.Detect, hnone], ?_, ?_⟩
  · intro hsome hne
    simp [EncodeDetector.Detect, hsome, hne]
  · intro hnone2
    simp [EncodeDetector.Detect, hnone2]

/-- C6 witness: candidate list `[932]` with buffer `48`: the successful
detector call yields `Ansi`; the failed detector call falls back to the
trial conversion and yields `UTF8`. -/
theorem c6_fallback_amended_witness :
    EncodeDetector.Detect true [932] [0x48] = TextEncoding.Ansi ∧
    EncodeDetector.Detect false [932] [0x48] = TextEncoding.UTF8 := by
  have h := c6_fallback_amended [932] [0x48] [0x48] (by decide)
  exact ⟨h.1, h.2.1 (by decide) (by decide)⟩

set_option maxRecDepth 100000 in
/-- C4: the DFA-based template `GetFormatType` classifies the pure
printable-ASCII buffer `[0x41]` ("A", no BOM) as `Mbcs`, i.e. as not
valid UTF-8, contradicting the claim; the second conjunct shows why:
for every byte value the tested table entry `utf8d[256 + 16 + class]`
lies in the all-ones transition row of the absorbing reject state, so
no byte whatsoever passes the per-byte acceptability test. -/
theorem c4_dfa_ascii_bug :
    Dfa.GetFormatType [0x41] = some Dfa.UnicodeType.Mbcs ∧
    ((List.range 256).all fun b =>
      Dfa.utf8d.getD (256 + 16 + Dfa.utf8d.getD b 0) 0 == 1) = true := by
  constructor
  · rfl
  · decide
